import Mathlib

/-!
Verification of the canvas text-fitting layout algorithm of
`src/app.py` (`create_image_with_text`, lines 30-75) and the slide
assembly of `create_video_from_text` (lines 137-151).

The layout fragment is embedded shallowly.  Text is `List Char`
(Python `str`), pixel sizes are `Nat`, and draw positions are `ℚ`
(Python 3 `/` on these inputs only ever produces exact halves, which
`ℚ` represents exactly).  A Python exception is modelled by `none`.

The two external capabilities the fragment consumes (spec section 6)
are abstracted:

* the font provider (`PIL.ImageFont` + `draw.textbbox`) becomes a
  `FontMetrics` record measuring a line at a font, together with a
  Boolean `avail` telling whether `ImageFont.truetype "arial.ttf"`
  succeeds (on failure the code substitutes the fixed-metric
  `ImageFont.load_default()` fallback);
* the text wrapper (`textwrap.wrap` with default options) is a
  parameter `wrapF` of the layout function; `wrapModel` below is an
  executable model of CPython `textwrap.wrap` (default options)
  restricted to inputs where word separation happens at whitespace
  only (the model treats a hyphen as an ordinary character, so it does
  not reproduce CPython's `break_on_hyphens` splitting of hyphenated
  words; no concrete input used below contains a hyphen).
-/

/-! ### Model of CPython `textwrap.wrap` (default options) -/

/-- Whitespace characters recognised by CPython `textwrap`
(`_whitespace = "\t\n\x0b\x0c\r "`). -/
def pyWs (c : Char) : Bool :=
  c == ' ' || c == '\t' || c == '\n' || c == '\r' || c == '\x0b' || c == '\x0c'

/-- Model of `str.expandtabs(8)`: a tab advances the column to the next
multiple of 8, a newline or carriage return resets the column, every
other character advances it by one. -/
def expandTabsAux : List Char → Nat → List Char
  | [], _ => []
  | c :: cs, col =>
    if c == '\t' then
      let n := 8 - col % 8
      List.replicate n ' ' ++ expandTabsAux cs (col + n)
    else if c == '\n' || c == '\r' then
      c :: expandTabsAux cs 0
    else
      c :: expandTabsAux cs (col + 1)

/-- The `_munge_whitespace` phase of `textwrap` with the default
options `expand_tabs=True, replace_whitespace=True`: tabs are expanded
and every whitespace character is replaced by a plain space. -/
def mungeText (text : List Char) : List Char :=
  (expandTabsAux text 0).map (fun c => if pyWs c then ' ' else c)

/-- Splits a munged text into maximal runs of spaces / non-spaces (the
chunk list produced by `textwrap`'s word separator on whitespace-split
input; the regex never yields empty chunks). -/
def chunksAux : List Char → List (List Char)
  | [] => []
  | c :: cs =>
    match chunksAux cs with
    | [] => [[c]]
    | [] :: rest => [c] :: [] :: rest
    | (d :: ds) :: rest =>
      if (c == ' ') == (d == ' ') then (c :: d :: ds) :: rest
      else [c] :: (d :: ds) :: rest

/-- Greedy inner loop of `_wrap_chunks`: starting from an already
consumed length `curLen`, take chunks while the accumulated length
stays within `width`.  Returns the taken chunks, the accumulated
length, and the remaining chunks. -/
def takeChunks (width : Nat) : Nat → List (List Char) → List (List Char) × Nat × List (List Char)
  | curLen, [] => ([], curLen, [])
  | curLen, c :: cs =>
    if curLen + c.length ≤ width then
      match takeChunks width (curLen + c.length) cs with
      | (t, l, r) => (c :: t, l, r)
    else ([], curLen, c :: cs)

/-- A chunk consisting only of spaces (CPython tests `chunk.strip() == ""`,
which is also true of an empty slice). -/
def allWs (c : List Char) : Bool := c.all (· == ' ')

/-- Drop a single trailing whitespace chunk from the current line
(the `drop_whitespace` step of `_wrap_chunks` before a line is emitted). -/
def dropTrailingWs (cur : List (List Char)) : List (List Char) :=
  match cur.getLast? with
  | some last => if allWs last then cur.dropLast else cur
  | none => cur

/-- Outer loop of `_wrap_chunks` (default options `drop_whitespace=True`,
`break_long_words=True`, empty indents, `max_lines=None`), written with a
fuel argument; every iteration consumes at least one character or chunk,
so the fuel chosen in `wrapModel` is never exhausted. -/
def wrapChunksFuel (width : Nat) : Nat → List (List Char) → List (List Char) → List (List Char)
  | 0, lines, _ => lines.reverse
  | _ + 1, lines, [] => lines.reverse
  | fuel + 1, lines, c :: cs =>
    -- drop one leading whitespace chunk, but not before the first line
    let chunks := if !lines.isEmpty && allWs c then cs else c :: cs
    let tkr := takeChunks width 0 chunks
    let taken := tkr.1
    let curLen := tkr.2.1
    let rem := tkr.2.2
    -- `_handle_long_word`: if the next chunk is longer than the full
    -- width, slice off whatever space is left on the current line
    let next :=
      match rem with
      | [] => (taken, ([] : List (List Char)))
      | c' :: rest =>
        if width < c'.length then
          let spaceLeft := if width < 1 then 1 else width - curLen
          (taken ++ [c'.take spaceLeft], (c'.drop spaceLeft) :: rest)
        else (taken, c' :: rest)
    let cur := dropTrailingWs next.1
    let lines' := if cur.isEmpty then lines else cur.flatten :: lines
    wrapChunksFuel width fuel lines' next.2

/-- Model of `textwrap.wrap(text, width)` with the default options, for
`width ≥ 1` (for `width ≤ 0` CPython raises `ValueError`; the caller in
`app.py` is modelled to propagate that case as `none` explicitly). -/
def wrapModel (width : Nat) (text : List Char) : List (List Char) :=
  let chs := chunksAux (mungeText text)
  wrapChunksFuel width ((mungeText text).length + chs.length + 1) [] chs

/-! ### Fonts and measurement -/

/-- A loaded PIL font: either `ImageFont.truetype("arial.ttf", size)` or
the fixed-metric `ImageFont.load_default()` fallback. -/
inductive PyFont where
  | truetype (size : Nat) : PyFont
  | fallback : PyFont
deriving DecidableEq

/-- The font-measurement capability: `draw.textbbox((0,0), line, font)`
reduced to the width `bbox[2]-bbox[0]` and height `bbox[3]-bbox[1]` of a
line, for a truetype font at a given size and for the fallback font. -/
structure FontMetrics where
  tt : Nat → List Char → Nat × Nat
  fb : List Char → Nat × Nat

/-- The `try: font = ImageFont.truetype(...) except: font = ImageFont.load_default()`
construct (app.py lines 43-46): `avail` says whether the truetype load
succeeds. -/
def loadFont (avail : Bool) (size : Nat) : PyFont :=
  if avail then PyFont.truetype size else PyFont.fallback

/-- Measure one line with the current font. -/
def measureLine (m : FontMetrics) : PyFont → List Char → Nat × Nat
  | PyFont.truetype s, l => m.tt s l
  | PyFont.fallback, l => m.fb l

/-- Python `max` over a list of `Nat`, with 0 for the empty list (the
code only reaches it on a non-empty list; the empty case is guarded and
modelled as an exception by the caller). -/
def maxList (l : List Nat) : Nat := l.foldr Nat.max 0

/-! ### The font-size search loop (app.py lines 42-54) -/

/-- One evaluation of the loop guard and body: at candidate size `s`,
load the font, wrap the text at the fixed coarse width 40, measure, and
test `max(line_widths) <= max_width and total_height <= max_height`. -/
def fitFits (wrapF : Nat → List Char → List (List Char)) (m : FontMetrics) (avail : Bool)
    (text : List Char) (W H M : Nat) (s : Nat) : Bool :=
  let font := loadFont avail s
  let lines := wrapF 40 text
  let lineWidths := lines.map (fun l => (measureLine m font l).1)
  let lineHeights := lines.map (fun l => (measureLine m font l).2)
  decide (maxList lineWidths ≤ W - 2 * M ∧ lineHeights.sum ≤ H - 2 * M)

/-- The `while font_size > 10` search: returns the pair
(final value of the `font_size` variable, size at which the loop's last
body ran).  On a break both components are the breaking size; when the
loop exhausts, `font_size` is 10 but the font object and the measured
widths left behind come from the last executed iteration at size 11. -/
def searchExit (f : Nat → Bool) : Nat → Nat × Nat
  | 0 => (0, 0)
  | s + 1 =>
    if 10 < s + 1 then
      if f (s + 1) then (s + 1, s + 1)
      else if 10 < s then searchExit f s else (s, s + 1)
    else (s + 1, s + 1)

/-- Number of loop-body executions of the size search started at `s`. -/
def searchIters (f : Nat → Bool) : Nat → Nat
  | 0 => 0
  | s + 1 =>
    if 10 < s + 1 then
      if f (s + 1) then 1 else 1 + searchIters f s
    else 0

/-- Exit state of the search loop of `create_image_with_text`, started
at the initial candidate size 100. -/
def fitExit (wrapF : Nat → List Char → List (List Char)) (m : FontMetrics) (avail : Bool)
    (text : List Char) (W H M : Nat) : Nat × Nat :=
  searchExit (fitFits wrapF m avail text W H M) 100

/-- Value of the `font_size` variable after the loop (the size selected
by the search; 10 when the floor is reached without a fit). -/
def fitSelSize (wrapF : Nat → List Char → List (List Char)) (m : FontMetrics) (avail : Bool)
    (text : List Char) (W H M : Nat) : Nat :=
  (fitExit wrapF m avail text W H M).1

/-- The font object left in scope after the loop (loaded at the size of
the last executed iteration). -/
def fitFont (wrapF : Nat → List Char → List (List Char)) (m : FontMetrics) (avail : Bool)
    (text : List Char) (W H M : Nat) : PyFont :=
  loadFont avail (fitExit wrapF m avail text W H M).2

/-! ### The refined wrap and final layout (app.py lines 56-71) -/

/-- Lines of the refined wrap, or `none` when the Python code raises:

* `wrap(text, 40) = []` (whitespace-only text) makes
  `max(line_widths)` in the first loop iteration raise `ValueError`;
* all coarse lines empty makes `max(len(line) for line in lines)` zero,
  so `avg_char_width = max(line_widths)/0` raises `ZeroDivisionError`;
* `max(line_widths) = 0` makes `avg_char_width = 0.0`, so
  `int(max_width/avg_char_width)` raises `ZeroDivisionError`;
* `max_chars_per_line = 0` makes `textwrap.wrap` raise `ValueError`.

`int(max_width / (maxw / maxLen))` is computed here in exact rational
arithmetic as `(max_width * maxLen) / maxw` (Nat floor); the source
computes it in IEEE double precision, which agrees on all magnitudes
involved here. -/
def fitRefined (wrapF : Nat → List Char → List (List Char)) (m : FontMetrics) (avail : Bool)
    (text : List Char) (W H M : Nat) : Option (List (List Char)) :=
  let coarse := wrapF 40 text
  if coarse.isEmpty then none
  else
    let font := fitFont wrapF m avail text W H M
    let maxw := maxList (coarse.map (fun l => (measureLine m font l).1))
    let maxLen := maxList (coarse.map List.length)
    if maxLen = 0 then none
    else if maxw = 0 then none
    else
      let maxChars := (W - 2 * M) * maxLen / maxw
      if maxChars = 0 then none
      else some (wrapF maxChars text)

/-- The per-line placement loop (app.py lines 65-71): each line is
horizontally centred at `x = (W - line_width)/2`, and `y` advances by
the line's measured height with no extra leading. -/
def placeLines (m : FontMetrics) (font : PyFont) (W : Nat) :
    List (List Char) → ℚ → List (List Char × ℚ × ℚ)
  | [], _ => []
  | l :: ls, y =>
    let wh := measureLine m font l
    (l, ((W : ℚ) - (wh.1 : ℚ)) / 2, y) :: placeLines m font W ls (y + (wh.2 : ℚ))

/-- The layout computed by `create_image_with_text` (app.py lines 30-71):
the ordered list of `(line, x, y)` draw placements, or `none` when the
Python function raises.  Drawing the glyphs and saving the PNG
(lines 70-75) are external effects outside this model; the spec calls
this layout fragment `fit`. -/
def create_image_with_text (wrapF : Nat → List Char → List (List Char)) (m : FontMetrics)
    (avail : Bool) (text : List Char) (W H M : Nat) : Option (List (List Char × ℚ × ℚ)) :=
  (fitRefined wrapF m avail text W H M).map (fun lines =>
    let font := fitFont wrapF m avail text W H M
    let totalHeight : ℚ := (lines.map (fun l => ((measureLine m font l).2 : ℚ))).sum
    placeLines m font W lines (((H : ℚ) - totalHeight) / 2))

/-! ### Video assembly (app.py lines 137-151) -/

/-- Python `text.split("\n")`: `k` newlines yield `k+1` segments,
empty segments included. -/
def splitOnNl : List Char → List (List Char)
  | [] => [[]]
  | c :: cs =>
    if c == '\n' then [] :: splitOnNl cs
    else
      match splitOnNl cs with
      | [] => [[c]]
      | s :: rest => (c :: s) :: rest

/-- The slide-building loop of `create_video_from_text`: one image per
segment via `create_image_with_text(line, image_size=video_size, margin=20)`,
each clip given `duration_per_slide`; an exception in any image
propagates (modelled by `none`). -/
def buildClips (wrapF : Nat → List Char → List (List Char)) (m : FontMetrics) (avail : Bool)
    (W H dur : Nat) : List (List Char) → Option (List (List (List Char × ℚ × ℚ) × Nat))
  | [] => some []
  | seg :: rest =>
    match create_image_with_text wrapF m avail seg W H 20 with
    | none => none
    | some lay =>
      (buildClips wrapF m avail W H dur rest).map (fun cs => (lay, dur) :: cs)

/-- The slide list assembled by `create_video_from_text` without
narration text (app.py lines 137-144): the video is the concatenation of
these clips in order.  Audio narration, encoding and file output are
external effects outside this model. -/
def create_video_from_text (wrapF : Nat → List Char → List (List Char)) (m : FontMetrics)
    (avail : Bool) (text : List Char) (W H dur : Nat) :
    Option (List (List (List Char × ℚ × ℚ) × Nat)) :=
  buildClips wrapF m avail W H dur (splitOnNl text)

/-! ### Concrete measurement capabilities used for evaluation -/

/-- A deterministic monospace measurement capability: a truetype font at
size `s` renders a line of `n` characters at `s*n × s` pixels; the
fixed-metric fallback (like PIL's bitmap default font) renders it at
`6*n × 11` pixels regardless of the requested size. -/
def monoMetrics : FontMetrics :=
  FontMetrics.mk (fun s l => (s * l.length, s)) (fun l => (6 * l.length, 11))

/-- Width weight of a character under the proportional capability:
a `W` is twice as wide as any other character. -/
def wCharWidth (c : Char) : Nat := if c == 'W' then 2 else 1

/-- A deterministic proportional measurement capability: a truetype font
at size `s` renders a line at `s * Σ wCharWidth × s` pixels; same
fallback as `monoMetrics`. -/
def propMetrics : FontMetrics :=
  FontMetrics.mk (fun s l => (s * (l.map wCharWidth).sum, s)) (fun l => (6 * l.length, 11))

/-- Replace a newline by a space, leaving every other character alone. -/
def nlToSp (c : Char) : Char := if c == '\n' then ' ' else c

/-- Concrete text for the C1 analysis: a 40-character word of `a`s
followed by a 25-character word of `W`s. -/
def c1text : List Char := List.replicate 40 'a' ++ [' '] ++ List.replicate 25 'W'

/-- Concrete text for the C3 analysis: a single unbreakable 500-character
word. -/
def c3text : List Char := List.replicate 500 'a'

/-! ### Validation of the wrap model against known CPython outputs -/

example : wrapModel 40 ("a\nb".toList) = [['a', ' ', 'b']] := by decide
example : wrapModel 40 ([] : List Char) = [] := by decide
example : wrapModel 3 ("ab xxxxx".toList) =
    [['a', 'b', ' '], ['x', 'x', 'x'], ['x', 'x']] := by decide
example : wrapModel 40 ("  a".toList) = [[' ', ' ', 'a']] := by decide
example : (wrapModel 9 (List.replicate 20 'a')).length = 3 := by decide
example : splitOnNl ("a\n".toList) = [['a'], []] := by decide

/-! ### Properties of the size-search loop -/

/-- The value of `font_size` at loop exit never exceeds the start size. -/
lemma searchExit_fst_le (f : Nat → Bool) : ∀ s, (searchExit f s).1 ≤ s
  | 0 => Nat.le_refl 0
  | s + 1 => by
    unfold searchExit
    split
    · split
      · exact Nat.le_refl _
      · split
        · exact Nat.le_trans (searchExit_fst_le f s) (Nat.le_succ s)
        · exact Nat.le_succ s
    · exact Nat.le_refl _

/-- Weakening the fit test pointwise can only raise the exit size of the
first-fit-from-above search. -/
lemma searchExit_fst_mono {f g : Nat → Bool} (hfg : ∀ t, f t = true → g t = true) :
    ∀ s, (searchExit f s).1 ≤ (searchExit g s).1
  | 0 => Nat.le_refl 0
  | s + 1 => by
    unfold searchExit
    by_cases h10 : 10 < s + 1
    · rw [if_pos h10, if_pos h10]
      by_cases hf : f (s + 1) = true
      · rw [if_pos hf, if_pos (hfg _ hf)]
      · rw [if_neg hf]
        by_cases hg : g (s + 1) = true
        · rw [if_pos hg]
          by_cases h10' : 10 < s
          · rw [if_pos h10']
            exact Nat.le_trans (searchExit_fst_le f s) (Nat.le_succ s)
          · rw [if_neg h10']
            exact Nat.le_succ s
        · rw [if_neg hg]
          by_cases h10' : 10 < s
          · rw [if_pos h10', if_pos h10']
            exact searchExit_fst_mono hfg s
          · rw [if_neg h10', if_neg h10']
    · rw [if_neg h10, if_neg h10]

/-- When the loop exits above the floor it exited through a `break`: the
exit state was measured at the exit size and the fit test holds there. -/
lemma searchExit_break (f : Nat → Bool) :
    ∀ s, 10 < (searchExit f s).1 →
      (searchExit f s).2 = (searchExit f s).1 ∧ f (searchExit f s).1 = true
  | 0 => by intro h; simp [searchExit] at h
  | s + 1 => by
    intro h
    unfold searchExit at h ⊢
    by_cases h10 : 10 < s + 1
    · rw [if_pos h10] at h ⊢
      by_cases hf : f (s + 1) = true
      · rw [if_pos hf] at h ⊢
        exact ⟨rfl, hf⟩
      · rw [if_neg hf] at h ⊢
        by_cases h10' : 10 < s
        · rw [if_pos h10'] at h ⊢
          exact searchExit_break f s h
        · rw [if_neg h10'] at h
          simp at h
          omega
    · rw [if_neg h10] at h ⊢
      exact absurd h h10

/-- Bound on the number of loop-body executions. -/
lemma searchIters_le (f : Nat → Bool) : ∀ s, searchIters f s ≤ s - 10
  | 0 => Nat.le_refl 0
  | s + 1 => by
    unfold searchIters
    split
    · split
      · omega
      · have := searchIters_le f s
        omega
    · omega

/-- Enlarging the canvas width weakens the fit test of the search loop. -/
lemma fitFits_mono_width {wrapF : Nat → List Char → List (List Char)} {m : FontMetrics}
    {avail : Bool} {text : List Char} {W₁ W₂ H M : Nat} (hW : W₂ ≤ W₁) (s : Nat)
    (h : fitFits wrapF m avail text W₂ H M s = true) :
    fitFits wrapF m avail text W₁ H M s = true := by
  unfold fitFits at h ⊢
  simp only [decide_eq_true_eq] at h ⊢
  exact ⟨Nat.le_trans h.1 (Nat.sub_le_sub_right hW _), h.2⟩

/-- C5: for a fixed text, measurement capability and height, and two
valid canvas widths `W₂ < W₁`, the font size selected by the decreasing
search loop at the narrower width is at most the one selected at the
wider width. -/
theorem claim5_size_monotone_in_width (wrapF : Nat → List Char → List (List Char))
    (m : FontMetrics) (avail : Bool) (text : List Char) (H M W₁ W₂ : Nat)
    (hW : W₂ < W₁) (hvW : 2 * M < W₂) (hvH : 2 * M < H) :
    fitSelSize wrapF m avail text W₂ H M ≤ fitSelSize wrapF m avail text W₁ H M :=
  searchExit_fst_mono (fun t => fitFits_mono_width (Nat.le_of_lt hW) t) 100

/-- C5 witness: the monotonicity theorem applied at widths 400 < 512. -/
theorem claim5_witness :
    (400 < 512 ∧ 2 * 20 < 400 ∧ 2 * 20 < 512) ∧
    fitSelSize wrapModel monoMetrics false ("Hi".toList) 400 512 20 ≤
      fitSelSize wrapModel monoMetrics false ("Hi".toList) 512 512 20 :=
  ⟨by decide,
   claim5_size_monotone_in_width wrapModel monoMetrics false ("Hi".toList) 512 20 512 400
     (by decide) (by decide) (by decide)⟩

/-- C7: the layout computation is a pure function of the text, the
canvas and the two measurement capabilities; two invocations with
identical inputs return identical layouts. -/
theorem claim7_deterministic (wrapF wrapF' : Nat → List Char → List (List Char))
    (m m' : FontMetrics) (avail avail' : Bool) (text text' : List Char)
    (W W' H H' M M' : Nat) (hwrap : wrapF = wrapF') (hm : m = m') (ha : avail = avail')
    (ht : text = text') (hW : W = W') (hH : H = H') (hM : M = M') :
    create_image_with_text wrapF m avail text W H M =
      create_image_with_text wrapF' m' avail' text' W' H' M' := by
  subst hwrap hm ha ht hW hH hM
  rfl

/-- C7 witness: two identical invocations at a concrete input. -/
theorem claim7_witness :
    create_image_with_text wrapModel monoMetrics true ("Hi".toList) 512 512 20 =
      create_image_with_text wrapModel monoMetrics true ("Hi".toList) 512 512 20 :=
  claim7_deterministic wrapModel wrapModel monoMetrics monoMetrics true true
    ("Hi".toList) ("Hi".toList) 512 512 512 512 20 20 rfl rfl rfl rfl rfl rfl rfl

/-- C8: the size-search loop of `create_image_with_text` executes at
most 90 iterations for every input and every measurement capability
(the candidate starts at 100, decreases by 1, and the guard requires
size > 10); in particular it terminates. -/
theorem claim8_loop_bound (wrapF : Nat → List Char → List (List Char)) (m : FontMetrics)
    (avail : Bool) (text : List Char) (W H M : Nat) :
    searchIters (fitFits wrapF m avail text W H M) 100 ≤ 90 := by
  have h := searchIters_le (fitFits wrapF m avail text W H M) 100
  omega

/-- C9 counterexample: a font-loading failure does substitute the
fallback, but the result of the call is not always a valid layout; on
empty text the call still raises (modelled by `none`), so the claim's
"the result with the fallback font is a valid layout" fails. -/
theorem claim9_counterexample :
    create_image_with_text wrapModel monoMetrics false ([] : List Char) 100 100 10 = none := by
  decide

/-- C9 amended: when the truetype load fails the fixed-metric fallback
font is used throughout (any layout is measured with it), the failure
is not surfaced as an error of its own, and further size reduction is a
no-op: the loop's fit test gives the same verdict at every candidate
size; the call as a whole may still raise for reasons unrelated to
fonts (degenerate text). -/
theorem claim9_fallback_noop (wrapF : Nat → List Char → List (List Char)) (m : FontMetrics)
    (text : List Char) (W H M : Nat) :
    fitFont wrapF m false text W H M = PyFont.fallback ∧
    (∀ s t : Nat, fitFits wrapF m false text W H M s = fitFits wrapF m false text W H M t) :=
  ⟨rfl, fun _ _ => rfl⟩

/-! ### Properties of the placement loop -/

/-- The placement loop emits one placement per line. -/
lemma placeLines_length (m : FontMetrics) (font : PyFont) (W : Nat) :
    ∀ (ls : List (List Char)) (y : ℚ), (placeLines m font W ls y).length = ls.length
  | [], _ => rfl
  | l :: ls, y => by
    simp only [placeLines, List.length_cons, placeLines_length m font W ls]

/-- The texts of the placements are the lines, in order. -/
lemma placeLines_map_fst (m : FontMetrics) (font : PyFont) (W : Nat) :
    ∀ (ls : List (List Char)) (y : ℚ), (placeLines m font W ls y).map Prod.fst = ls
  | [], _ => rfl
  | l :: ls, y => by
    simp only [placeLines, List.map_cons, placeLines_map_fst m font W ls]

/-- Closed form of the `i`-th placement: the line itself, the centring
x-offset, and the start offset advanced by the heights of the lines
before it. -/
lemma placeLines_get (m : FontMetrics) (font : PyFont) (W : Nat) :
    ∀ (ls : List (List Char)) (y : ℚ) (i : Nat) (hi : i < ls.length)
      (hig : i < (placeLines m font W ls y).length),
      (placeLines m font W ls y).get ⟨i, hig⟩ =
        (ls.get ⟨i, hi⟩,
         ((W : ℚ) - ((measureLine m font (ls.get ⟨i, hi⟩)).1 : ℚ)) / 2,
         y + ((ls.take i).map (fun l => ((measureLine m font l).2 : ℚ))).sum)
  | [], _, i, hi, _ => absurd hi (Nat.not_lt_zero i)
  | l :: ls, y, 0, hi, hig => by
    simp [placeLines]
  | l :: ls, y, i + 1, hi, hig => by
    have ih := placeLines_get m font W ls (y + ((measureLine m font l).2 : ℚ)) i
      (Nat.lt_of_succ_lt_succ hi)
      (by rw [placeLines_length]; exact Nat.lt_of_succ_lt_succ hi)
    simp only [placeLines, List.get_cons_succ, List.take_succ_cons, List.map_cons,
      List.sum_cons] at ih ⊢
    rw [ih]
    ring_nf

/-- C6: for every layout returned by the fitter, the first line's
y-offset is `(H - total_refined_height)/2` (not clamped), every line is
horizontally centred at `x = (W - line_width)/2`, and each subsequent
line's y-offset is the previous one plus the previous line's measured
height, with no added inter-line spacing. -/
theorem claim6_placement_arithmetic (wrapF : Nat → List Char → List (List Char))
    (m : FontMetrics) (avail : Bool) (text : List Char) (W H M : Nat)
    (L : List (List Char × ℚ × ℚ))
    (h : create_image_with_text wrapF m avail text W H M = some L) :
    (∀ (i : Nat) (hi : i < L.length),
        (L.get ⟨i, hi⟩).2.1 =
          ((W : ℚ) -
            ((measureLine m (fitFont wrapF m avail text W H M) (L.get ⟨i, hi⟩).1).1 : ℚ)) / 2) ∧
    (∀ (h0 : 0 < L.length),
        (L.get ⟨0, h0⟩).2.2 =
          ((H : ℚ) -
            (L.map (fun p =>
              ((measureLine m (fitFont wrapF m avail text W H M) p.1).2 : ℚ))).sum) / 2) ∧
    (∀ (i : Nat) (hi : i + 1 < L.length),
        (L.get ⟨i + 1, hi⟩).2.2 =
          (L.get ⟨i, Nat.lt_of_succ_lt hi⟩).2.2 +
            ((measureLine m (fitFont wrapF m avail text W H M)
              (L.get ⟨i, Nat.lt_of_succ_lt hi⟩).1).2 : ℚ)) := by
  unfold create_image_with_text at h
  cases hr : fitRefined wrapF m avail text W H M with
  | none => rw [hr] at h; simp at h
  | some lines =>
    rw [hr] at h
    simp only [Option.map_some', Option.some.injEq] at h
    subst h
    set font := fitFont wrapF m avail text W H M with hfont
    set g : List Char → ℚ := fun l => ((measureLine m font l).2 : ℚ) with hg
    set y0 : ℚ := ((H : ℚ) - (lines.map g).sum) / 2 with hy0
    have hmap : ∀ y : ℚ,
        (placeLines m font W lines y).map (fun p => ((measureLine m font p.1).2 : ℚ)) =
          lines.map g := by
      intro y
      have : (fun p : List Char × ℚ × ℚ => ((measureLine m font p.1).2 : ℚ)) =
          g ∘ Prod.fst := rfl
      rw [this, ← List.map_map, placeLines_map_fst]
    refine ⟨?_, ?_, ?_⟩
    · intro i hi
      have hi' : i < lines.length := by rwa [placeLines_length] at hi
      rw [placeLines_get m font W lines y0 i hi' hi]
    · intro h0
      have h0' : 0 < lines.length := by rwa [placeLines_length] at h0
      rw [placeLines_get m font W lines y0 0 h0' h0, hmap]
      simp [hy0]
    · intro i hi
      have hi' : i + 1 < lines.length := by rwa [placeLines_length] at hi
      rw [placeLines_get m font W lines y0 (i + 1) hi' hi,
        placeLines_get m font W lines y0 i (Nat.lt_of_succ_lt hi') (Nat.lt_of_succ_lt hi)]
      have hsum : ((lines.take (i + 1)).map g).sum =
          ((lines.take i).map g).sum + g (lines.get ⟨i, Nat.lt_of_succ_lt hi'⟩) := by
        rw [List.map_take, List.map_take,
          List.sum_take_succ (lines.map g) i
            (by rw [List.length_map]; exact Nat.lt_of_succ_lt hi')]
        simp [List.getElem_map, List.get_eq_getElem]
      rw [hsum]
      ring

/-- C6 witness: the placement theorem applied to the concrete layout of
the text "Hi" on a 512 by 512 canvas with margin 20 under the monospace
capability (one line of width 200 and height 100 at the selected size
100, placed at x = 156, y = 206). -/
theorem claim6_witness :
    (∀ (i : Nat) (hi : i < ([(('H' :: 'i' :: []), (156 : ℚ), (206 : ℚ))]).length),
        (([(('H' :: 'i' :: []), (156 : ℚ), (206 : ℚ))]).get ⟨i, hi⟩).2.1 =
          ((512 : ℚ) -
            ((measureLine monoMetrics
              (fitFont wrapModel monoMetrics true ('H' :: 'i' :: []) 512 512 20)
              (([(('H' :: 'i' :: []), (156 : ℚ), (206 : ℚ))]).get ⟨i, hi⟩).1).1 : ℚ)) / 2) ∧
    (∀ (h0 : 0 < ([(('H' :: 'i' :: []), (156 : ℚ), (206 : ℚ))]).length),
        (([(('H' :: 'i' :: []), (156 : ℚ), (206 : ℚ))]).get ⟨0, h0⟩).2.2 =
          ((512 : ℚ) -
            (([(('H' :: 'i' :: []), (156 : ℚ), (206 : ℚ))]).map (fun p =>
              ((measureLine monoMetrics
                (fitFont wrapModel monoMetrics true ('H' :: 'i' :: []) 512 512 20)
                p.1).2 : ℚ))).sum) / 2) ∧
    (∀ (i : Nat) (hi : i + 1 < ([(('H' :: 'i' :: []), (156 : ℚ), (206 : ℚ))]).length),
        (([(('H' :: 'i' :: []), (156 : ℚ), (206 : ℚ))]).get ⟨i + 1, hi⟩).2.2 =
          (([(('H' :: 'i' :: []), (156 : ℚ), (206 : ℚ))]).get ⟨i, Nat.lt_of_succ_lt hi⟩).2.2 +
            ((measureLine monoMetrics
              (fitFont wrapModel monoMetrics true ('H' :: 'i' :: []) 512 512 20)
              (([(('H' :: 'i' :: []), (156 : ℚ), (206 : ℚ))]).get
                ⟨i, Nat.lt_of_succ_lt hi⟩).1).2 : ℚ)) :=
  claim6_placement_arithmetic wrapModel monoMetrics true ('H' :: 'i' :: []) 512 512 20
    [(('H' :: 'i' :: []), (156 : ℚ), (206 : ℚ))] (by
      have h1 : fitRefined wrapModel monoMetrics true ('H' :: 'i' :: []) 512 512 20 =
          some [['H', 'i']] := by decide
      have h2 : fitFont wrapModel monoMetrics true ('H' :: 'i' :: []) 512 512 20 =
          PyFont.truetype 100 := by decide
      unfold create_image_with_text
      rw [h1, Option.map_some']
      simp only [h2, measureLine, placeLines, List.map_cons, List.map_nil,
        List.sum_cons, List.sum_nil, List.length_cons, List.length_nil]
      norm_num [monoMetrics, List.length])

/-! ### Claims C1 to C4 and C10 -/

/-- C1 counterexample: under the proportional capability, for the text
`c1text` on a 2920 by 88 canvas with margin 10 the search loop breaks at
size 34 (well above the floor 10), yet the refined re-wrap merges the
two words into one 66-character line whose measured width 3094 exceeds
the inner width 2900: the fit invariant does not hold for the returned
layout even though the font size was not reduced to the floor. -/
theorem claim1_counterexample :
    fitSelSize wrapModel propMetrics true c1text 2920 88 10 = 34 ∧
    ((create_image_with_text wrapModel propMetrics true c1text 2920 88 10).map
        (fun L => L.map (fun p =>
          (measureLine propMetrics (fitFont wrapModel propMetrics true c1text 2920 88 10)
            p.1).1))) = some [3094] ∧
    ¬ (3094 ≤ 2920 - 2 * 10) := by
  refine ⟨by decide, by decide, by decide⟩

/-- C1 amended: the fit invariant holds for the coarse wrap that the
search loop actually measures: whenever the selected size is above the
floor (the loop exited through its fit test), every coarse line's
measured width is at most the inner width and the coarse lines' total
height is at most the inner height.  The refined re-wrap computed
afterwards is never re-checked and may overflow even above the floor
(see the counterexample). -/
theorem claim1_coarse_invariant (wrapF : Nat → List Char → List (List Char)) (m : FontMetrics)
    (avail : Bool) (text : List Char) (W H M : Nat)
    (h : 10 < fitSelSize wrapF m avail text W H M) :
    maxList ((wrapF 40 text).map
        (fun l => (measureLine m (fitFont wrapF m avail text W H M) l).1)) ≤ W - 2 * M ∧
    ((wrapF 40 text).map
        (fun l => (measureLine m (fitFont wrapF m avail text W H M) l).2)).sum ≤ H - 2 * M := by
  have hb := searchExit_break (fitFits wrapF m avail text W H M) 100 h
  have hfit := hb.2
  unfold fitFits at hfit
  simp only [decide_eq_true_eq] at hfit
  unfold fitFont fitExit
  rw [hb.1]
  exact hfit

/-- C1 witness: on the text "Hi" with a 512 by 512 canvas and margin 20
the loop breaks at size 100, and the coarse wrap fits both bounds. -/
theorem claim1_witness :
    10 < fitSelSize wrapModel monoMetrics true ('H' :: 'i' :: []) 512 512 20 ∧
    (maxList ((wrapModel 40 ('H' :: 'i' :: [])).map
        (fun l => (measureLine monoMetrics
          (fitFont wrapModel monoMetrics true ('H' :: 'i' :: []) 512 512 20) l).1)) ≤
        512 - 2 * 20 ∧
    ((wrapModel 40 ('H' :: 'i' :: [])).map
        (fun l => (measureLine monoMetrics
          (fitFont wrapModel monoMetrics true ('H' :: 'i' :: []) 512 512 20) l).2)).sum ≤
        512 - 2 * 20) :=
  ⟨by decide,
   claim1_coarse_invariant wrapModel monoMetrics true ('H' :: 'i' :: []) 512 512 20 (by decide)⟩

/-- C2: the division-by-zero guard claimed by the spec does not exist in
the code.  On empty text `textwrap.wrap` returns no lines and
`max(line_widths)` raises `ValueError` in the first loop iteration, for
any canvas and whether or not the truetype font loads; a whitespace-only
text raises the same way.  The call returns no layout at all instead of
a single near-zero placement. -/
theorem claim2_empty_text_raises :
    create_image_with_text wrapModel monoMetrics true ([] : List Char) 512 512 20 = none ∧
    create_image_with_text wrapModel monoMetrics false ([] : List Char) 512 512 20 = none ∧
    create_image_with_text wrapModel monoMetrics false ([] : List Char) 64 64 5 = none ∧
    create_image_with_text wrapModel propMetrics true (' ' :: []) 512 512 20 = none := by
  refine ⟨by decide, by decide, by decide, by decide⟩

set_option maxRecDepth 100000 in
/-- C3 counterexample: for the unbreakable 500-character word on the
64 by 64 canvas with margin 5 (fallback metrics, 6 by 11 pixels per
character), the call does not raise but returns 56 lines, not exactly
one: the refined wrap re-breaks the long word at the derived width of 9
characters per line. -/
theorem claim3_counterexample :
    ((create_image_with_text wrapModel monoMetrics false c3text 64 64 5).map
        List.length) = some 56 ∧ ¬ (56 = 1) := by
  refine ⟨by decide, by decide⟩

set_option maxRecDepth 100000 in
/-- C3 amended: for the 500-character unbreakable word on the 64 by 64
canvas with margin 5 the search reaches the floor (`font_size` ends at
10), the call does not raise, and it returns 56 lines; the true inner
width is 54 (not 59), no returned line's measured width exceeds it (the
long word is re-broken at the derived 9-characters-per-line width), and
the overflow is vertical: the total measured height 616 exceeds the
inner height 54. -/
theorem claim3_floor_behaviour :
    fitSelSize wrapModel monoMetrics false c3text 64 64 5 = 10 ∧
    ((create_image_with_text wrapModel monoMetrics false c3text 64 64 5).map
        List.length) = some 56 ∧
    (∀ p ∈ (create_image_with_text wrapModel monoMetrics false c3text 64 64 5).getD [],
        (measureLine monoMetrics (fitFont wrapModel monoMetrics false c3text 64 64 5)
          p.1).1 ≤ 64 - 2 * 5) ∧
    64 - 2 * 5 <
      (((create_image_with_text wrapModel monoMetrics false c3text 64 64 5).getD []).map
        (fun p => (measureLine monoMetrics
          (fitFont wrapModel monoMetrics false c3text 64 64 5) p.1).2)).sum := by
  refine ⟨by decide, by decide, by decide, by decide⟩

/-- C4 counterexample: the input "a\nb" has two newline-separated
segments, but the returned layout has a single line in which the
newline has been replaced by a space: `textwrap.wrap` normalises
newlines to spaces, so input line breaks are not preserved. -/
theorem claim4_counterexample :
    ((create_image_with_text wrapModel monoMetrics true ('a' :: '\n' :: 'b' :: [])
        512 512 20).map (fun L => L.map (fun p => p.1))) =
      some [('a' :: ' ' :: 'b' :: [])] ∧
    (splitOnNl ('a' :: '\n' :: 'b' :: [])).length = 2 := by
  refine ⟨by decide, by decide⟩

/-- Expanding tabs is the identity on tab-free text. -/
lemma expandTabsAux_no_tab :
    ∀ (t : List Char) (col : Nat), '\t' ∉ t → expandTabsAux t col = t
  | [], _, _ => rfl
  | c :: cs, col, h => by
    have hc : ¬ (c == '\t') = true := by
      simp only [beq_iff_eq]
      exact fun hce => h (hce ▸ List.mem_cons_self c cs)
    have hcs : '\t' ∉ cs := fun hm => h (List.mem_cons_of_mem c hm)
    unfold expandTabsAux
    rw [if_neg hc]
    by_cases hnl : (c == '\n' || c == '\r') = true
    · rw [if_pos hnl, expandTabsAux_no_tab cs 0 hcs]
    · rw [if_neg hnl, expandTabsAux_no_tab cs (col + 1) hcs]

/-- Replacing newlines by spaces commutes away under whitespace
munging, provided the text has no tabs (a tab after a newline would be
expanded against a different column). -/
lemma mungeText_nlToSp (t : List Char) (h : '\t' ∉ t) :
    mungeText (t.map nlToSp) = mungeText t := by
  have hnt : '\t' ∉ t.map nlToSp := by
    intro hm
    rcases List.mem_map.mp hm with ⟨c, hc, hnl⟩
    unfold nlToSp at hnl
    by_cases hcn : (c == '\n') = true
    · rw [if_pos hcn] at hnl; exact absurd hnl (by decide)
    · rw [if_neg hcn] at hnl; exact h (hnl ▸ hc)
  unfold mungeText
  rw [expandTabsAux_no_tab t 0 h, expandTabsAux_no_tab (t.map nlToSp) 0 hnt, List.map_map]
  congr 1
  funext c
  simp only [Function.comp_apply]
  unfold nlToSp
  by_cases hcn : (c == '\n') = true
  · rw [if_pos hcn]
    have : c = '\n' := by simpa using hcn
    subst this
    decide
  · rw [if_neg hcn]

/-- The wrap model cannot tell a newline from a space (tab-free text). -/
lemma wrapModel_nlToSp (w : Nat) (t : List Char) (h : '\t' ∉ t) :
    wrapModel w (t.map nlToSp) = wrapModel w t := by
  unfold wrapModel
  rw [mungeText_nlToSp t h]

/-- Congruence of the layout in the wrapped text: two texts whose wraps
agree at every width produce the same layout. -/
lemma create_image_congr (wrapF : Nat → List Char → List (List Char)) (m : FontMetrics)
    (avail : Bool) (t₁ t₂ : List Char) (W H M : Nat)
    (h : ∀ w, wrapF w t₁ = wrapF w t₂) :
    create_image_with_text wrapF m avail t₁ W H M =
      create_image_with_text wrapF m avail t₂ W H M := by
  have hfits : fitFits wrapF m avail t₁ W H M = fitFits wrapF m avail t₂ W H M := by
    funext s
    unfold fitFits
    rw [h 40]
  have hfont : fitFont wrapF m avail t₁ W H M = fitFont wrapF m avail t₂ W H M := by
    unfold fitFont fitExit
    rw [hfits]
  have hrefined : fitRefined wrapF m avail t₁ W H M = fitRefined wrapF m avail t₂ W H M := by
    unfold fitRefined
    rw [hfont]
    simp only [h]
  unfold create_image_with_text
  rw [hrefined, hfont]

/-- C4 amended: the fitter does not treat newline-separated segments as
independent paragraphs; `textwrap.wrap` replaces each newline by a
space during whitespace munging, so (for tab-free text) the layout of a
text equals the layout of the same text with every newline replaced by
a space.  Only `create_video_from_text` splits the input on newlines
(see C10). -/
theorem claim4_newline_is_space (m : FontMetrics) (avail : Bool) (t : List Char)
    (W H M : Nat) (h : '\t' ∉ t) :
    create_image_with_text wrapModel m avail (t.map nlToSp) W H M =
      create_image_with_text wrapModel m avail t W H M :=
  create_image_congr wrapModel m avail (t.map nlToSp) t W H M
    (fun w => wrapModel_nlToSp w t h)

/-- C4 witness: the amended theorem applied to "a\nb". -/
theorem claim4_witness :
    create_image_with_text wrapModel monoMetrics true
        (('a' :: '\n' :: 'b' :: []).map nlToSp) 512 512 20 =
      create_image_with_text wrapModel monoMetrics true ('a' :: '\n' :: 'b' :: []) 512 512 20 :=
  claim4_newline_is_space monoMetrics true ('a' :: '\n' :: 'b' :: []) 512 512 20 (by decide)

/-! ### Claim C10 -/

/-- Splitting on newlines never yields an empty segment list. -/
lemma splitOnNl_ne_nil : ∀ t : List Char, splitOnNl t ≠ []
  | [] => by simp [splitOnNl]
  | c :: cs => by
    unfold splitOnNl
    by_cases hc : (c == '\n') = true
    · rw [if_pos hc]; simp
    · rw [if_neg hc]
      cases hs : splitOnNl cs with
      | nil => simp
      | cons s rest => simp

/-- Python `text.split("\n")`: `k` newlines yield exactly `k + 1`
segments. -/
lemma splitOnNl_length : ∀ t : List Char, (splitOnNl t).length = t.count '\n' + 1
  | [] => rfl
  | c :: cs => by
    unfold splitOnNl
    by_cases hc : (c == '\n') = true
    · rw [if_pos hc]
      have : c = '\n' := by simpa using hc
      subst this
      simp [splitOnNl_length cs, List.count_cons]
    · rw [if_neg hc]
      cases hs : splitOnNl cs with
      | nil => exact absurd hs (splitOnNl_ne_nil cs)
      | cons s rest =>
        have hlen := splitOnNl_length cs
        rw [hs] at hlen
        have hcne : c ≠ '\n' := by simpa using hc
        simp only [List.length_cons, List.count_cons] at hlen ⊢
        simp [hcne, hlen]

/-- When every segment's image succeeds, the clip loop returns one clip
per segment, in order, each with the requested duration. -/
lemma buildClips_all_some (wrapF : Nat → List Char → List (List Char)) (m : FontMetrics)
    (avail : Bool) (W H dur : Nat) :
    ∀ segs : List (List Char),
      (∀ seg ∈ segs, (create_image_with_text wrapF m avail seg W H 20).isSome) →
      buildClips wrapF m avail W H dur segs =
        some (segs.map (fun seg =>
          ((create_image_with_text wrapF m avail seg W H 20).getD [], dur)))
  | [], _ => rfl
  | seg :: rest, h => by
    have hseg := h seg (List.mem_cons_self seg rest)
    have hrest := buildClips_all_some wrapF m avail W H dur rest
      (fun s hs => h s (List.mem_cons_of_mem seg hs))
    unfold buildClips
    cases hfit : create_image_with_text wrapF m avail seg W H 20 with
    | none => rw [hfit] at hseg; simp at hseg
    | some lay =>
      rw [hrest]
      simp [hfit]

/-- C10 counterexample: the text "a\n" has one newline, hence two
segments, but `create_video_from_text` does not produce two slides: the
empty second segment makes `create_image_with_text` raise (C2), and the
exception propagates out of the video builder. -/
theorem claim10_counterexample :
    (create_video_from_text wrapModel monoMetrics false ('a' :: '\n' :: []) 512 512 2).isNone
      = true ∧
    (splitOnNl ('a' :: '\n' :: [])).length = 2 := by
  refine ⟨by decide, by decide⟩

/-- C10 amended: without narration, and provided every newline-separated
segment renders successfully (in particular no segment is empty or
whitespace-only), the video is assembled from exactly one slide per
segment — `k` newlines yield `k + 1` slides — in input order, each with
the configured per-slide duration; a failing segment instead propagates
the exception (see the counterexample). -/
theorem claim10_one_slide_per_segment (wrapF : Nat → List Char → List (List Char))
    (m : FontMetrics) (avail : Bool) (text : List Char) (W H dur : Nat)
    (h : ∀ seg ∈ splitOnNl text, (create_image_with_text wrapF m avail seg W H 20).isSome) :
    create_video_from_text wrapF m avail text W H dur =
      some ((splitOnNl text).map (fun seg =>
        ((create_image_with_text wrapF m avail seg W H 20).getD [], dur))) ∧
    (splitOnNl text).length = text.count '\n' + 1 :=
  ⟨buildClips_all_some wrapF m avail W H dur (splitOnNl text) h, splitOnNl_length text⟩

/-- C10 witness: the amended theorem applied to "a\nb" (both segments
render), yielding two slides of duration 2. -/
theorem claim10_witness :
    create_video_from_text wrapModel monoMetrics false ('a' :: '\n' :: 'b' :: []) 512 512 2 =
      some ((splitOnNl ('a' :: '\n' :: 'b' :: [])).map (fun seg =>
        ((create_image_with_text wrapModel monoMetrics false seg 512 512 20).getD [], 2))) ∧
    (splitOnNl ('a' :: '\n' :: 'b' :: [])).length =
      ('a' :: '\n' :: 'b' :: []).count '\n' + 1 :=
  claim10_one_slide_per_segment wrapModel monoMetrics false ('a' :: '\n' :: 'b' :: [])
    512 512 2 (by decide)
